import Mathlib

set_option maxRecDepth 8000

/-!
Verification of the gormzap record decoder and SQL renderer.

The development shallowly embeds the Go source of the package:

* `GoValue` models the dynamic `interface{}` values that the gorm logging
  hook passes to `Logger.Print`;
* `newRecord` models `(*Logger).newRecord` (record decoding), with `none`
  standing for a Go runtime panic (failed type assertion / out-of-range
  index);
* `formatSQL` / `formatValue` / `redactLong` model the SQL renderer;
* `runReplacer` models `strings.NewReplacer(...).Replace`: a single
  left-to-right pass where, at each position, the first pattern in argument
  order that matches is replaced and the scan resumes after it, without
  rescanning replacement text; duplicate patterns defer to the first
  occurrence in argument order, exactly as documented for `strings.Replacer`.

Strings are modeled as `List Char`; machine integers as `Int`/`Nat` (no
arithmetic overflow occurs in the modeled code).  Functions are written with
structural recursion (fuel where necessary) so that all definitions evaluate
by `decide`/`rfl`.
-/

/-- `String` literal to `List Char` shorthand used throughout the model. -/
def chars (s : String) : List Char := s.toList

/-- One decimal digit as a character (`0`-`9` for `d < 10`). -/
def digitChar (d : Nat) : Char := Char.ofNat (48 + d)

/-- Fuel-driven decimal printer for positive naturals: most significant digit
first.  The fuel is always at least `n`, which bounds the recursion depth. -/
def natDecAux : Nat → Nat → List Char
  | 0, _ => []
  | fuel + 1, n =>
    if n = 0 then [] else natDecAux fuel (n / 10) ++ [digitChar (n % 10)]

/-- Decimal representation of a natural number, as produced by Go's
`fmt.Sprintf("%d", ...)` for non-negative values. -/
def natDec (n : Nat) : List Char := if n = 0 then ['0'] else natDecAux n n

/-- Decimal representation of an integer (`fmt.Sprintf("%d", ...)`). -/
def intDec (i : Int) : List Char :=
  if i < 0 then '-' :: natDec i.natAbs else natDec i.natAbs

/-- Zero-padding to two digits, as in Go's time layout components `01`..`05`. -/
def pad2 (n : Nat) : List Char := if n < 10 then '0' :: natDec n else natDec n

/-- Zero-padding to four digits, as in Go's time layout component `2006`. -/
def pad4 (n : Nat) : List Char :=
  if n < 10 then '0' :: '0' :: '0' :: natDec n
  else if n < 100 then '0' :: '0' :: natDec n
  else if n < 1000 then '0' :: natDec n
  else natDec n

/-- The fixed `"2006-01-02 15:04:05"` layout applied to a time value. -/
def timeFmt (y mo d h mi s : Nat) : List Char :=
  pad4 y ++ '-' :: pad2 mo ++ '-' :: pad2 d ++ ' ' :: pad2 h ++
    ':' :: pad2 mi ++ ':' :: pad2 s

/-- Severity levels of zapcore used by the logger. -/
inductive Level where
  | debug | info | warn | error | dpanicLvl | panicLvl | fatal
  deriving DecidableEq, Repr

/-- Width tags of Go's signed integer family (`int`, `int8`, ..., `int64`).
The width only matters for type assertions, not for `%d` formatting. -/
inductive IntW where
  | i | i8 | i16 | i32 | i64
  deriving DecidableEq, Repr

/-- Width tags of Go's unsigned integer family. -/
inductive UIntW where
  | u | u8 | u16 | u32 | u64
  deriving DecidableEq, Repr

/-- Model of the dynamic values (`interface{}`) handled by the package.

* `nilv` is the nil interface value;
* `ptr` is a single-level pointer (`nil` or pointing at a value);
* `timev` is a `time.Time` with its calendar components;
* `durv` is a `time.Duration` in nanoseconds;
* `bytes` is a `[]byte`, modeled by the characters of its string decoding;
* `intv`/`uintv` are the integer families;
* `valuer` is a `driver.Valuer` whose `Value()` succeeds (payload `none`
  models a nil result), `valuerErr` one whose `Value()` returns an error;
* `str` is a `string`;
* `errv` is an `error` value with its message (the only constructor whose
  dynamic type implements `error` in this model);
* `list` is a `[]interface{}` (the bound-values slice of a "sql" call);
* `otherv` is any other (opaque) value together with its `%v` rendering. -/
inductive GoValue where
  | nilv
  | ptr (p : Option GoValue)
  | timev (y mo d h mi s : Nat)
  | durv (d : Int)
  | bytes (s : List Char)
  | intv (w : IntW) (i : Int)
  | uintv (w : UIntW) (n : Nat)
  | valuer (res : Option GoValue)
  | valuerErr (msg : List Char)
  | str (s : List Char)
  | errv (msg : List Char)
  | list (vs : List GoValue)
  | otherv (repr : List Char)

/-- `reflect.Indirect(reflect.ValueOf(v))` followed by the `IsValid` check:
`none` models an invalid reflect value (nil interface, or nil pointer). -/
def indirect : GoValue → Option GoValue
  | .nilv => none
  | .ptr none => none
  | .ptr (some w) => some w
  | v => some v

/-- Model of `fmt`'s `%v` rendering of a single value.  It is exact for the
constructors the claims exercise (strings, errors, integers, byte slices);
pointer addresses, `driver.Valuer` wrappers, slices and the `String()`
methods of durations/times are rendered as fixed best-effort placeholders
since their exact `%v` output is outside the repository (no claim depends
on those renderings). -/
def goRepr : GoValue → List Char
  | .nilv => chars "<nil>"
  | .ptr none => chars "<nil>"
  | .ptr (some _) => chars "<ptr>"
  | .timev y mo d h mi s => timeFmt y mo d h mi s
  | .durv d => intDec d ++ chars "ns"
  | .bytes s => s
  | .intv _ i => intDec i
  | .uintv _ n => natDec n
  | .valuer _ => chars "<valuer>"
  | .valuerErr _ => chars "<valuer>"
  | .str s => s
  | .errv msg => msg
  | .list _ => chars "[...]"
  | .otherv r => r

/-- Whether a value is a Go `string` operand (for `fmt.Sprint` spacing). -/
def isStrOp : GoValue → Bool
  | .str _ => true
  | _ => false

/-- Model of `fmt.Sprint(values...)`: operands are concatenated, with a
space added between two adjacent operands when neither is a string. -/
def goSprint : List GoValue → List Char
  | [] => []
  | [v] => goRepr v
  | v :: w :: rest =>
    goRepr v ++ (if isStrOp v || isStrOp w then [] else [' ']) ++ goSprint (w :: rest)

/-- Whether the dynamic type of a value implements `error`
(the `values[2].(error)` comma-ok assertion). -/
def isErrVal : GoValue → Bool
  | .errv _ => true
  | _ => false

/-- Go equality `v == "lit"` between an `interface{}` and a string constant:
true exactly when the dynamic type is `string` and the contents agree. -/
def goEqStr (v : GoValue) (s : List Char) : Bool :=
  match v with
  | .str t => t == s
  | _ => false

/-- The redaction threshold, `const maxLen = 255`. -/
def maxLen : Nat := 255

/-- `redactLong`: a quoted value longer than `maxLen` is replaced by the
literal `'<redacted>'`, otherwise returned unchanged. -/
def redactLong (s : List Char) : List Char :=
  if maxLen < s.length then chars "'<redacted>'" else s

/-- Model of `unicode.IsPrint` restricted to the ASCII range (exact there:
`0x20`..`0x7E` are printable, controls are not).  The non-ASCII print
tables of the Go standard library are not modeled; the claims only
exercise ASCII data. -/
def goIsPrint (c : Char) : Bool := 0x20 ≤ c.toNat && c.toNat ≤ 0x7E

/-- `isPrintable`: every character printable. -/
def isPrintable (s : List Char) : Bool := s.all goIsPrint

/-- Number of wrapper layers (`*T` pointers and `driver.Valuer` unwraps) in
a value; used as recursion fuel for `formatValue`. -/
def unwrapDepth : GoValue → Nat
  | .ptr (some w) => unwrapDepth w + 1
  | .valuer (some dv) => unwrapDepth dv + 1
  | _ => 0

/-- Fuel-driven body of `formatValue` (the fuel bounds the number of
`driver.Valuer` unwrap recursions; `formatValue` supplies enough).

Mirrors the source: first indirect the value (invalid ⇒ `NULL`), then
dispatch on the dynamic type: `time.Time` is quoted with the fixed layout
(no redaction); `[]byte` is quoted then redacted when printable and renders
as `'<binary>'` otherwise; the integer families render as bare decimals;
a `driver.Valuer` is recursively formatted when `Value()` succeeds with a
non-nil result and renders as `NULL` otherwise (the error is swallowed);
everything else is `%v`-rendered, quoted, then redacted. -/
def formatValueAux (fuel : Nat) (v : GoValue) : List Char :=
  match indirect v with
  | none => chars "NULL"
  | some w =>
    match w with
    | .timev y mo d h mi s => '\'' :: timeFmt y mo d h mi s ++ ['\'']
    | .bytes s =>
      if isPrintable s then redactLong ('\'' :: s ++ ['\'']) else chars "'<binary>'"
    | .intv _ i => intDec i
    | .uintv _ n => natDec n
    | .valuer (some dv) =>
      match fuel with
      | 0 => chars "NULL"
      | f + 1 => formatValueAux f dv
    | .valuer none => chars "NULL"
    | .valuerErr _ => chars "NULL"
    | w' => redactLong ('\'' :: goRepr w' ++ ['\''])

/-- `formatValue`, the renderer for a single bound value. -/
def formatValue (v : GoValue) : List Char := formatValueAux (unwrapDepth v) v

/-- `formatNumbered`: the placeholder string `$(index+1)`. -/
def formatNumbered (index : Nat) : List Char := '$' :: natDec (index + 1)

/-- `formatQuestioned`: the anonymous placeholder `?`. -/
def formatQuestioned (_ : Nat) : List Char := ['?']

/-- `[size-1, size-2, ..., 0]`: the iteration order of the replacement-building
loop in `formatSQL` (`for i := size - 1; i >= 0; i--`). -/
def countdown : Nat → List Nat
  | 0 => []
  | n + 1 => n :: countdown n

/-- The pattern/replacement pairs handed to `strings.NewReplacer`, in the
order the `formatSQL` loop writes them: highest index first. -/
def goReplacements (numbered : Bool) (values : List GoValue) :
    List (List Char × List Char) :=
  (countdown values.length).map fun i =>
    ((if numbered then formatNumbered i else formatQuestioned i),
      formatValue (values.getD i .nilv))

/-- The pattern lookup of `strings.Replacer` at one position: the first pair
in argument order whose (non-empty) pattern is a prefix of the remaining
input. -/
def findRep (reps : List (List Char × List Char)) (s : List Char) :
    Option (List Char × List Char) :=
  reps.find? fun r => !r.1.isEmpty && r.1.isPrefixOf s

/-- Fuel-driven single pass of `strings.Replacer.Replace`: at each position
replace the first matching pattern and resume after it (non-overlapping, no
rescanning of replacements), otherwise copy one character.  Every step
consumes at least one input character, so fuel `s.length` suffices. -/
def runReplacerAux (reps : List (List Char × List Char)) :
    Nat → List Char → List Char
  | 0, s => s
  | _ + 1, [] => []
  | fuel + 1, c :: rest =>
    match findRep reps (c :: rest) with
    | some pr => pr.2 ++ runReplacerAux reps fuel (rest.drop (pr.1.length - 1))
    | none => c :: runReplacerAux reps fuel rest

/-- `strings.NewReplacer(reps...).Replace(s)`. -/
def runReplacer (reps : List (List Char × List Char)) (s : List Char) : List Char :=
  runReplacerAux reps s.length s

/-- `strings.Contains(s, sub)`: some suffix of `s` starts with `sub`. -/
def containsSub (sub : List Char) : List Char → Bool
  | [] => sub.isEmpty
  | c :: rest => sub.isPrefixOf (c :: rest) || containsSub sub rest

/-- `formatSQL`: choose numbered mode iff the template contains `$1`, build
the replacement pairs from the highest index down, and apply the replacer. -/
def formatSQL (sql : List Char) (values : List GoValue) : List Char :=
  runReplacer (goReplacements (containsSub (chars "$1") sql) values) sql

/-- The decoded log record (`Record` in record.go).  Zero values mirror Go:
empty strings, `0` duration/rows. -/
structure Record where
  Message : List Char
  Source : List Char
  Level : Level
  Duration : Int
  SQL : List Char
  RowsAffected : Int
  deriving DecidableEq, Repr

/-- The four positional type assertions of the "sql" branch:
`values[2].(time.Duration)`, `values[3].(string)`,
`values[4].([]interface{})`, `values[5].(int64)`.  `none` when any index is
missing or any assertion would panic. -/
def decodeSqlShape (values : List GoValue) :
    Option (Int × List Char × List GoValue × Int) :=
  match (values[2]? : Option GoValue), (values[3]? : Option GoValue),
        (values[4]? : Option GoValue), (values[5]? : Option GoValue) with
  | some (.durv d), some (.str tpl), some (.list bvs), some (.intv .i64 ra) =>
    some (d, tpl, bvs, ra)
  | _, _, _, _ => none

/-- `(*Logger).newRecord`.  `lvl` is the configured default level.  The
result is `none` exactly when the Go code would panic (failed type
assertion or index out of range in the "sql" branch). -/
def newRecord (lvl : Level) (values : List GoValue) : Option Record :=
  if values.length < 2 then
    some { Message := goSprint values, Source := [], Level := lvl,
           Duration := 0, SQL := [], RowsAffected := 0 }
  else if values.length = 2 then
    some { Message := goRepr (values.getD 1 .nilv),
           Source := goRepr (values.getD 0 .nilv), Level := .error,
           Duration := 0, SQL := [], RowsAffected := 0 }
  else if goEqStr (values.getD 0 .nilv) (chars "log") then
    some { Message := goSprint (values.drop 2),
           Source := goRepr (values.getD 1 .nilv),
           Level := if isErrVal (values.getD 2 .nilv) then .error else lvl,
           Duration := 0, SQL := [], RowsAffected := 0 }
  else if goEqStr (values.getD 0 .nilv) (chars "sql") then
    match decodeSqlShape values with
    | some (d, tpl, bvs, ra) =>
      some { Message := chars "gorm query",
             Source := goRepr (values.getD 1 .nilv), Level := lvl,
             Duration := d, SQL := formatSQL tpl bvs, RowsAffected := ra }
    | none => none
  else
    some { Message := goSprint (values.drop 2),
           Source := goRepr (values.getD 1 .nilv), Level := lvl,
           Duration := 0, SQL := [], RowsAffected := 0 }

/-- A zap field, as far as the default encoder is concerned. -/
inductive ZapField where
  | strF (key : List Char) (val : List Char)
  | durF (key : List Char) (val : Int)
  | int64F (key : List Char) (val : Int)
  deriving DecidableEq, Repr

/-- `DefaultRecordToFields` from record.go. -/
def DefaultRecordToFields (r : Record) : List ZapField :=
  if r.SQL ≠ [] then
    [.strF (chars "sql.source") r.Source,
     .durF (chars "sql.duration") r.Duration,
     .strF (chars "sql.query") r.SQL,
     .int64F (chars "sql.rows_affected") r.RowsAffected]
  else
    [.strF (chars "sql.source") r.Source]

/-- Assembles a numbered SQL template from `$`-free segments interleaved
with placeholders: `glue [(s₁,k₁),...,(sₘ,kₘ)] t = s₁ ++ $k₁ ++ ... ++ sₘ ++ $kₘ ++ t`. -/
def glue : List (List Char × Nat) → List Char → List Char
  | [], tl => tl
  | (seg, k) :: rest, tl => seg ++ '$' :: (natDec k ++ glue rest tl)

/-- The expected rendering of such a template: each placeholder `$k`
replaced by the formatted literal of bound value `k`. -/
def glueR (values : List GoValue) : List (List Char × Nat) → List Char → List Char
  | [], tl => tl
  | (seg, k) :: rest, tl =>
    seg ++ formatValue (values.getD (k - 1) .nilv) ++ glueR values rest tl

/-- `true` when a string does not start with a decimal digit (or is empty). -/
def notDigitStart : List Char → Bool
  | [] => true
  | c :: _ => !c.isDigit

/-- Each placeholder occurrence in the template is maximal: the text that
follows it does not start with a digit (so `$1` in the template cannot be
read as the beginning of `$10`, etc.). -/
def boundaryOK : List (List Char × Nat) → List Char → Bool
  | [], _ => true
  | _ :: rest, tl => notDigitStart (glue rest tl) && boundaryOK rest tl

/-! ### Decimal representation lemmas -/

lemma natDecAux_eq : ∀ (fuel n : Nat), n ≤ fuel →
    natDecAux fuel n = (Nat.digits 10 n).reverse.map digitChar := by
  intro fuel
  induction fuel with
  | zero =>
    intro n hn
    have : n = 0 := by omega
    subst this
    simp [natDecAux]
  | succ f ih =>
    intro n hn
    by_cases h0 : n = 0
    · subst h0
      simp [natDecAux]
    · have hpos : 0 < n := Nat.pos_of_ne_zero h0
      have hdiv : n / 10 ≤ f := by
        have := Nat.div_lt_self hpos (by norm_num : 1 < 10)
        omega
      rw [natDecAux, if_neg h0, ih (n / 10) hdiv,
        Nat.digits_def' (by norm_num : (1:ℕ) < 10) hpos]
      simp

lemma natDec_eq {n : Nat} (h0 : n ≠ 0) :
    natDec n = (Nat.digits 10 n).reverse.map digitChar := by
  rw [natDec, if_neg h0]
  exact natDecAux_eq n n le_rfl

lemma digitChar_isDigit : ∀ d < 10, (digitChar d).isDigit = true := by decide

lemma digitChar_inj : ∀ d < 10, ∀ e < 10, digitChar d = digitChar e → d = e := by decide

lemma natDec_all_digit (n : Nat) : ∀ c ∈ natDec n, c.isDigit = true := by
  by_cases h0 : n = 0
  · subst h0
    decide
  · rw [natDec_eq h0]
    intro c hc
    obtain ⟨d, hd, rfl⟩ := List.mem_map.mp hc
    exact digitChar_isDigit d
      (Nat.digits_lt_base (by norm_num) (List.mem_reverse.mp hd))

lemma natDec_ne_nil (n : Nat) : natDec n ≠ [] := by
  by_cases h0 : n = 0
  · subst h0
    decide
  · rw [natDec_eq h0]
    simp [Nat.digits_ne_nil_iff_ne_zero.mpr h0]

lemma map_digitChar_inj : ∀ (xs ys : List Nat), (∀ x ∈ xs, x < 10) →
    (∀ y ∈ ys, y < 10) → xs.map digitChar = ys.map digitChar → xs = ys := by
  intro xs
  induction xs with
  | nil =>
    intro ys _ _ h
    cases ys with
    | nil => rfl
    | cons y ys => simp at h
  | cons x xs ih =>
    intro ys hx hy h
    cases ys with
    | nil => simp at h
    | cons y ys =>
      simp only [List.map_cons, List.cons.injEq] at h
      have hxy : x = y :=
        digitChar_inj x (hx x (by simp)) y (hy y (by simp)) h.1
      subst hxy
      rw [ih ys (fun a ha => hx a (by simp [ha])) (fun a ha => hy a (by simp [ha])) h.2]

lemma natDec_le_of_pref {a b : Nat} (ha : a ≠ 0) (hb : b ≠ 0)
    (h : natDec a <+: natDec b) : a ≤ b := by
  rw [natDec_eq ha, natDec_eq hb] at h
  have hlen : (Nat.digits 10 a).length ≤ (Nat.digits 10 b).length := by
    have := h.length_le
    simpa using this
  rcases Nat.lt_or_ge (Nat.digits 10 a).length (Nat.digits 10 b).length with hl | hl
  · have h1 : a < 10 ^ (Nat.digits 10 a).length :=
      Nat.lt_base_pow_length_digits (by norm_num)
    have h2 : 10 ^ (Nat.digits 10 b).length ≤ 10 * b :=
      Nat.base_pow_length_digits_le 10 b (by norm_num) hb
    have h3 : 10 ^ ((Nat.digits 10 a).length + 1) ≤ 10 ^ (Nat.digits 10 b).length :=
      Nat.pow_le_pow_right (by norm_num) (by omega)
    have h4 : 10 * 10 ^ (Nat.digits 10 a).length ≤ 10 * b := by
      calc 10 * 10 ^ (Nat.digits 10 a).length
          = 10 ^ ((Nat.digits 10 a).length + 1) := by ring
        _ ≤ 10 ^ (Nat.digits 10 b).length := h3
        _ ≤ 10 * b := h2
    have h5 : 10 ^ (Nat.digits 10 a).length ≤ b := by omega
    omega
  · have hleq : (Nat.digits 10 a).length = (Nat.digits 10 b).length :=
      le_antisymm hlen hl
    have hmap := h.eq_of_length (by simp [hleq])
    have hrev : (Nat.digits 10 a).reverse = (Nat.digits 10 b).reverse :=
      map_digitChar_inj _ _
        (fun x hx => Nat.digits_lt_base (by norm_num) (List.mem_reverse.mp hx))
        (fun y hy => Nat.digits_lt_base (by norm_num) (List.mem_reverse.mp hy))
        hmap
    have hdig : Nat.digits 10 a = Nat.digits 10 b := by
      have := congrArg List.reverse hrev
      simpa using this
    have : a = b := by
      calc a = Nat.ofDigits 10 (Nat.digits 10 a) := (Nat.ofDigits_digits 10 a).symm
        _ = Nat.ofDigits 10 (Nat.digits 10 b) := by rw [hdig]
        _ = b := Nat.ofDigits_digits 10 b
    omega

/-- Bridge between the boolean `isPrefixOf` used by the replacer and the
`IsPrefix` relation. -/
lemma isPre_iff {xs ys : List Char} : xs.isPrefixOf ys = true ↔ xs <+: ys :=
  List.isPrefixOf_iff_prefix

/-! ### Replacer lemmas -/

lemma runReplacerAux_congr (reps : List (List Char × List Char)) :
    ∀ (f g : Nat) (s : List Char), s.length ≤ f → s.length ≤ g →
      runReplacerAux reps f s = runReplacerAux reps g s := by
  intro f
  induction f with
  | zero =>
    intro g s hf _
    have : s = [] := List.eq_nil_of_length_eq_zero (by omega)
    subst this
    cases g <;> rfl
  | succ f ih =>
    intro g s hf hg
    cases s with
    | nil => cases g <;> rfl
    | cons c rest =>
      simp only [List.length_cons] at hf hg
      obtain ⟨g', rfl⟩ : ∃ g', g = g' + 1 := ⟨g - 1, by omega⟩
      have hf' : rest.length ≤ f := by omega
      have hg' : rest.length ≤ g' := by omega
      simp only [runReplacerAux]
      cases hfind : findRep reps (c :: rest) with
      | some pr =>
        dsimp only
        have hdl : (rest.drop (pr.1.length - 1)).length ≤ rest.length := by
          simp [List.length_drop]
        congr 1
        exact ih g' (rest.drop (pr.1.length - 1)) (by omega) (by omega)
      | none =>
        dsimp only
        congr 1
        exact ih g' rest hf' hg'

lemma runReplacer_cons_some {reps : List (List Char × List Char)} {c : Char}
    {rest : List Char} {pr : List Char × List Char}
    (h : findRep reps (c :: rest) = some pr) :
    runReplacer reps (c :: rest)
      = pr.2 ++ runReplacer reps (rest.drop (pr.1.length - 1)) := by
  unfold runReplacer
  simp only [List.length_cons, runReplacerAux, h]
  congr 1
  exact runReplacerAux_congr reps rest.length _ _ (by simp [List.length_drop]) le_rfl

lemma runReplacer_cons_none {reps : List (List Char × List Char)} {c : Char}
    {rest : List Char} (h : findRep reps (c :: rest) = none) :
    runReplacer reps (c :: rest) = c :: runReplacer reps rest := by
  unfold runReplacer
  simp only [List.length_cons, runReplacerAux, h]

lemma runReplacer_no_reps : ∀ s : List Char, runReplacer [] s = s := by
  intro s
  induction s with
  | nil => rfl
  | cons c rest ih =>
    rw [runReplacer_cons_none (by rfl), ih]

/-! ### Numbered-placeholder lemmas -/

lemma goReplacements_true (values : List GoValue) :
    goReplacements true values = (countdown values.length).map fun i =>
      (formatNumbered i, formatValue (values.getD i .nilv)) := by
  simp [goReplacements]

lemma pats_dollar (values : List GoValue) :
    ∀ p ∈ goReplacements true values, ∃ t, p.1 = '$' :: t := by
  intro p hp
  rw [goReplacements_true] at hp
  obtain ⟨i, _, rfl⟩ := List.mem_map.mp hp
  exact ⟨natDec (i + 1), rfl⟩

lemma runReplacer_seg {reps : List (List Char × List Char)}
    (hpats : ∀ p ∈ reps, ∃ t, p.1 = '$' :: t) :
    ∀ (seg rest : List Char), '$' ∉ seg →
      runReplacer reps (seg ++ rest) = seg ++ runReplacer reps rest := by
  intro seg
  induction seg with
  | nil => simp
  | cons c seg ih =>
    intro rest hseg
    have hc : ('$' == c) = false := by
      have : c ≠ '$' := fun h => hseg (by simp [h])
      simpa [beq_eq_false_iff_ne] using this.symm
    have hfind : findRep reps (c :: (seg ++ rest)) = none := by
      apply List.find?_eq_none.mpr
      intro p hp
      obtain ⟨t, hpt⟩ := hpats p hp
      simp [hpt, List.isPrefixOf, hc]
    rw [List.cons_append, runReplacer_cons_none hfind,
      ih rest (fun h => hseg (by simp [h]))]
    simp

lemma prefix_stop_at_nondigit :
    ∀ (ds es rest : List Char), (∀ c ∈ ds, c.isDigit = true) →
      notDigitStart rest = true → (ds <+: es ++ rest ↔ ds <+: es) := by
  intro ds
  induction ds with
  | nil => simp
  | cons d ds ih =>
    intro es rest hds hrest
    cases es with
    | nil =>
      simp only [List.nil_append]
      constructor
      · intro h
        exfalso
        cases rest with
        | nil => simp at h
        | cons r rs =>
          rw [List.cons_prefix_cons] at h
          obtain ⟨rfl, -⟩ := h
          have hd := hds d (by simp)
          simp [notDigitStart, hd] at hrest
      · intro h
        exfalso
        simp at h
    | cons e es'
      =>
      rw [List.cons_append, List.cons_prefix_cons, List.cons_prefix_cons]
      exact and_congr_right fun _ =>
        ih es' rest (fun c hc => hds c (by simp [hc])) hrest

lemma runReplacer_dollarFree {reps : List (List Char × List Char)}
    (hpats : ∀ p ∈ reps, ∃ t, p.1 = '$' :: t) (s : List Char) (hs : '$' ∉ s) :
    runReplacer reps s = s := by
  have h := runReplacer_seg hpats s [] hs
  have h0 : runReplacer reps ([] : List Char) = [] := rfl
  rw [List.append_nil, h0, List.append_nil] at h
  exact h

lemma find_numPat (values : List GoValue) :
    ∀ (m k : Nat) (rest : List Char), k ≠ 0 → k ≤ m → notDigitStart rest = true →
      findRep ((countdown m).map fun i =>
          (formatNumbered i, formatValue (values.getD i .nilv)))
          ('$' :: (natDec k ++ rest))
        = some (formatNumbered (k - 1), formatValue (values.getD (k - 1) .nilv)) := by
  intro m
  induction m with
  | zero =>
    intro k rest hk hkm _
    omega
  | succ m ih =>
    intro k rest hk hkm hrest
    rw [countdown, List.map_cons]
    by_cases hEq : k = m + 1
    · subst hEq
      have hpre : (formatNumbered m).isPrefixOf ('$' :: (natDec (m + 1) ++ rest)) = true := by
        rw [isPre_iff]
        rw [formatNumbered, List.cons_prefix_cons]
        exact ⟨rfl, List.prefix_append _ _⟩
      unfold findRep
      rw [List.find?_cons_of_pos _ (by simp [hpre, formatNumbered])]
      simp [formatNumbered]
    · have hklt : k ≤ m := by omega
      have hnot : (formatNumbered m).isPrefixOf ('$' :: (natDec k ++ rest)) = false := by
        by_contra hcon
        have htrue : (formatNumbered m).isPrefixOf ('$' :: (natDec k ++ rest)) = true := by
          cases hx : (formatNumbered m).isPrefixOf ('$' :: (natDec k ++ rest))
          · exact absurd hx hcon
          · rfl
        rw [isPre_iff, formatNumbered, List.cons_prefix_cons] at htrue
        have hpre2 : natDec (m + 1) <+: natDec k :=
          (prefix_stop_at_nondigit (natDec (m + 1)) (natDec k) rest
            (natDec_all_digit (m + 1)) hrest).mp htrue.2
        have := natDec_le_of_pref (by omega) hk hpre2
        omega
      unfold findRep
      rw [List.find?_cons_of_neg _ (by simp [hnot])]
      exact ih k rest hk hklt hrest

lemma runReplacer_numbered_step (values : List GoValue) (k : Nat) (rest : List Char)
    (hk : k ≠ 0) (hkn : k ≤ values.length) (hrest : notDigitStart rest = true) :
    runReplacer (goReplacements true values) ('$' :: (natDec k ++ rest))
      = formatValue (values.getD (k - 1) .nilv)
          ++ runReplacer (goReplacements true values) rest := by
  have hfind : findRep (goReplacements true values) ('$' :: (natDec k ++ rest))
      = some (formatNumbered (k - 1), formatValue (values.getD (k - 1) .nilv)) := by
    rw [goReplacements_true]
    exact find_numPat values values.length k rest hk hkn hrest
  rw [runReplacer_cons_some hfind]
  have hnum : formatNumbered (k - 1) = '$' :: natDec k := by
    rw [formatNumbered]
    congr 2
    omega
  congr 1
  rw [hnum]
  simp only [List.length_cons, Nat.add_sub_cancel]
  rw [List.drop_left]

lemma runReplacer_glue (values : List GoValue) :
    ∀ (pieces : List (List Char × Nat)) (tl : List Char),
      (∀ p ∈ pieces, '$' ∉ p.1 ∧ p.2 ≠ 0 ∧ p.2 ≤ values.length) →
      boundaryOK pieces tl = true → '$' ∉ tl →
      runReplacer (goReplacements true values) (glue pieces tl)
        = glueR values pieces tl := by
  intro pieces
  induction pieces with
  | nil =>
    intro tl _ _ htl
    rw [glue, glueR]
    exact runReplacer_dollarFree (pats_dollar values) tl htl
  | cons p rest ih =>
    obtain ⟨seg, k⟩ := p
    intro tl hseg hb htl
    have h1 := hseg (seg, k) (by simp)
    have hb1 : notDigitStart (glue rest tl) = true := by
      simp [boundaryOK] at hb
      exact hb.1
    have hb2 : boundaryOK rest tl = true := by
      simp [boundaryOK] at hb
      exact hb.2
    rw [glue, runReplacer_seg (pats_dollar values) seg _ h1.1,
      runReplacer_numbered_step values k _ h1.2.1 h1.2.2 hb1,
      ih tl (fun q hq => hseg q (by simp [hq])) hb2 htl, glueR]
    simp

/-! ### Supporting lemmas for the claim theorems -/

lemma goEqStr_eq (v : GoValue) (s : List Char) : goEqStr v s = true ↔ v = .str s := by
  cases v <;> simp [goEqStr]

lemma natDec_ne_redacted (n : Nat) : natDec n ≠ chars "'<redacted>'" := by
  intro h
  have hd : ∀ c ∈ chars "'<redacted>'", c.isDigit = true := h ▸ natDec_all_digit n
  have := hd '\'' (by decide)
  simp at this

lemma intDec_ne_redacted (i : Int) : intDec i ≠ chars "'<redacted>'" := by
  rw [intDec]
  by_cases hneg : i < 0
  · rw [if_pos hneg]
    intro h
    rw [show chars "'<redacted>'" = '\'' :: chars "<redacted>'" from rfl] at h
    simp at h
  · rw [if_neg hneg]
    exact natDec_ne_redacted _

/-! ### Claim theorems -/

/-- C1.  The claim states that anonymous `?` placeholders are consumed in
left-to-right positional order matching the bound-value order.  The code
violates this: the replacement pairs are written from the highest index
down, and `strings.NewReplacer` gives duplicate patterns the precedence of
their first occurrence in argument order, so every `?` is replaced by the
formatted literal of the LAST bound value.  This theorem evaluates the
renderer at the failing input: both `?` receive value 2, not values 1, 2. -/
theorem anonymous_placeholders_use_last_value :
    formatSQL (chars "SELECT * FROM t WHERE a = ? AND b = ?") [.intv .i 1, .intv .i 2]
      = chars "SELECT * FROM t WHERE a = 2 AND b = 2"
    ∧ formatSQL (chars "SELECT * FROM t WHERE a = ? AND b = ?") [.intv .i 1, .intv .i 2]
      ≠ chars "SELECT * FROM t WHERE a = 1 AND b = 2" := by
  constructor
  · decide
  · decide

/-- C2 counterexample.  The claim says an error at ANY position ≥ 2 of a
"log"-tagged call escalates severity to error; the code only inspects
`values[2]`.  With an error at position 3 the decoded level stays at the
configured default (debug), not error. -/
theorem log_trailing_error_not_escalated_cex :
    (newRecord Level.debug
        [.str (chars "log"), .str (chars "src"), .str (chars "a"),
         .errv (chars "boom")]).map Record.Level = some Level.debug
    ∧ Level.debug ≠ Level.error := by
  constructor
  · decide
  · decide

/-- C2 (amended).  For a "log"-tagged call with at least 3 values, the
decoded severity is error iff the value at position 2 (the first value
after the source) is a concrete error; errors at later positions do not
escalate, and otherwise the configured default severity is used. -/
theorem log_level_depends_on_position_two (lvl : Level) (values : List GoValue)
    (hlen : 3 ≤ values.length)
    (htag : values.getD 0 .nilv = .str (chars "log")) :
    newRecord lvl values = some
      { Message := goSprint (values.drop 2),
        Source := goRepr (values.getD 1 .nilv),
        Level := if isErrVal (values.getD 2 .nilv) then Level.error else lvl,
        Duration := 0, SQL := [], RowsAffected := 0 } := by
  unfold newRecord
  rw [if_neg (by omega), if_neg (by omega), htag, if_pos (by decide)]

/-- C2 witness: a "log" call with the error in position 2 decodes with error
severity (and concrete message/source). -/
theorem log_level_depends_on_position_two_witness :
    newRecord Level.debug [.str (chars "log"), .str (chars "src"), .errv (chars "boom")]
      = some { Message := chars "boom", Source := chars "src", Level := Level.error,
               Duration := 0, SQL := [], RowsAffected := 0 } := by
  have h := log_level_depends_on_position_two Level.debug
    [.str (chars "log"), .str (chars "src"), .errv (chars "boom")]
    (by decide) rfl
  exact h.trans (by decide)

/-- C3.  For a well-formed numbered template (segments free of `$`,
placeholders `$k` with `1 ≤ k ≤ n` never followed directly by a digit) over
a list of `n ≥ 10` bound values, `formatSQL` replaces every placeholder
`$k` by the formatted literal of bound value `k`; building the substitution
entries from the highest index down prevents `$1` from matching inside
`$10`. -/
theorem formatSQL_numbered_positional (values : List GoValue)
    (pieces : List (List Char × Nat)) (tl : List Char)
    (_h10 : 10 ≤ values.length)
    (hseg : ∀ p ∈ pieces, '$' ∉ p.1 ∧ p.2 ≠ 0 ∧ p.2 ≤ values.length)
    (hb : boundaryOK pieces tl = true)
    (htl : '$' ∉ tl)
    (hnum : containsSub (chars "$1") (glue pieces tl) = true) :
    formatSQL (glue pieces tl) values = glueR values pieces tl := by
  unfold formatSQL
  rw [hnum]
  exact runReplacer_glue values pieces tl hseg hb htl

/-- C3 witness: a template with both `$1` and `$10` over ten bound values;
`$10` receives value 10 and is not corrupted by the replacement of `$1`. -/
theorem formatSQL_numbered_positional_witness :
    formatSQL (chars "SELECT * FROM t WHERE a = $1 AND b = $10 ORDER BY c")
        [.intv .i 1, .intv .i 2, .intv .i 3, .intv .i 4, .intv .i 5,
         .intv .i 6, .intv .i 7, .intv .i 8, .intv .i 9, .intv .i 10]
      = chars "SELECT * FROM t WHERE a = 1 AND b = 10 ORDER BY c" := by
  have h := formatSQL_numbered_positional
    [.intv .i 1, .intv .i 2, .intv .i 3, .intv .i 4, .intv .i 5,
     .intv .i 6, .intv .i 7, .intv .i 8, .intv .i 9, .intv .i 10]
    [(chars "SELECT * FROM t WHERE a = ", 1), (chars " AND b = ", 10)]
    (chars " ORDER BY c")
    (by decide) (by decide) (by decide) (by decide) (by decide)
  rw [show glue [(chars "SELECT * FROM t WHERE a = ", 1), (chars " AND b = ", 10)]
      (chars " ORDER BY c")
      = chars "SELECT * FROM t WHERE a = $1 AND b = $10 ORDER BY c" from by decide] at h
  exact h.trans (by decide)

/-- C4.  A call with exactly two values decodes to a Record with error
severity (regardless of the configured default), with the message being the
string rendering of the second value and the source the string rendering of
the first. -/
theorem two_value_call_error_record (lvl : Level) (v0 v1 : GoValue) :
    newRecord lvl [v0, v1] = some
      { Message := goRepr v1, Source := goRepr v0, Level := Level.error,
        Duration := 0, SQL := [], RowsAffected := 0 } := by
  rfl

/-- C5.  Redaction: a quoted string longer than 255 characters renders as
exactly `'<redacted>'`, one of at most 255 characters is returned
unchanged; `formatValue` routes quoted strings and opaque values through
`redactLong`, while integer-family values render as bare decimals and are
never redacted. -/
theorem redaction_rule :
    (∀ s : List Char,
      (255 < s.length → redactLong s = chars "'<redacted>'")
      ∧ (s.length ≤ 255 → redactLong s = s))
    ∧ (∀ s : List Char, formatValue (.str s) = redactLong ('\'' :: s ++ ['\'']))
    ∧ (∀ r : List Char, formatValue (.otherv r) = redactLong ('\'' :: r ++ ['\'']))
    ∧ (∀ (w : IntW) (i : Int),
        formatValue (.intv w i) = intDec i ∧ intDec i ≠ chars "'<redacted>'")
    ∧ (∀ (w : UIntW) (n : Nat),
        formatValue (.uintv w n) = natDec n ∧ natDec n ≠ chars "'<redacted>'") := by
  refine ⟨fun s => ⟨fun h => ?_, fun h => ?_⟩, fun s => rfl, fun r => rfl,
    fun w i => ⟨rfl, intDec_ne_redacted i⟩, fun w n => ⟨rfl, natDec_ne_redacted n⟩⟩
  · rw [redactLong, if_pos (by simpa [maxLen] using h)]
  · rw [redactLong, if_neg (by simp [maxLen]; omega)]

/-- C5 witness: a 300-character quoted value is redacted; a short one is
kept; an integer renders as its bare decimal. -/
theorem redaction_rule_witness :
    redactLong (List.replicate 300 'a') = chars "'<redacted>'"
    ∧ redactLong (chars "'ab'") = chars "'ab'"
    ∧ formatValue (.intv .i64 42) = chars "42" := by
  refine ⟨(redaction_rule.1 (List.replicate 300 'a')).1 (by decide),
    (redaction_rule.1 (chars "'ab'")).2 (by decide), ?_⟩
  exact (redaction_rule.2.2.2.1 .i64 42).1.trans (by decide)

/-- C6.  A bound value that is null/invalid after indirection, or a
`driver.Valuer` whose unwrap fails or yields nil, formats as exactly the
unquoted literal `NULL`; the unwrap error is swallowed (the formatter is
total and returns a string, never an error). -/
theorem null_values_render_null (v : GoValue)
    (h : indirect v = none ∨ indirect v = some (.valuer none)
        ∨ ∃ m, indirect v = some (.valuerErr m)) :
    formatValue v = chars "NULL" := by
  rcases h with h | h | ⟨m, h⟩ <;>
    (unfold formatValue formatValueAux; rw [h])

/-- C6 witness: a nil pointer, a nil interface, a failed unwrap and a nil
unwrap result all render as `NULL`. -/
theorem null_values_render_null_witness :
    formatValue (.ptr none) = chars "NULL"
    ∧ formatValue .nilv = chars "NULL"
    ∧ formatValue (.valuerErr (chars "broken")) = chars "NULL"
    ∧ formatValue (.valuer none) = chars "NULL" :=
  ⟨null_values_render_null (.ptr none) (Or.inl rfl),
   null_values_render_null .nilv (Or.inl rfl),
   null_values_render_null (.valuerErr (chars "broken")) (Or.inr (Or.inr ⟨_, rfl⟩)),
   null_values_render_null (.valuer none) (Or.inr (Or.inl rfl))⟩

/-- C7.  Integer-family values (signed or unsigned, any width) render as
unquoted decimal strings; printable byte sequences, strings and opaque
values are enclosed in single quotes before possible redaction; a
non-printable byte sequence renders as exactly `'<binary>'`. -/
theorem value_quoting :
    (∀ (w : IntW) (i : Int), formatValue (.intv w i) = intDec i)
    ∧ (∀ (w : UIntW) (n : Nat), formatValue (.uintv w n) = natDec n)
    ∧ (∀ s : List Char, isPrintable s = true →
        formatValue (.bytes s) = redactLong ('\'' :: s ++ ['\'']))
    ∧ (∀ s : List Char, isPrintable s = false →
        formatValue (.bytes s) = chars "'<binary>'")
    ∧ (∀ s : List Char, formatValue (.str s) = redactLong ('\'' :: s ++ ['\'']))
    ∧ (∀ r : List Char, formatValue (.otherv r) = redactLong ('\'' :: r ++ ['\''])) := by
  refine ⟨fun w i => rfl, fun w n => rfl, fun s h => ?_, fun s h => ?_,
    fun s => rfl, fun r => rfl⟩
  · show (if isPrintable s then redactLong ('\'' :: s ++ ['\''])
      else chars "'<binary>'") = redactLong ('\'' :: s ++ ['\''])
    rw [h]
    rfl
  · show (if isPrintable s then redactLong ('\'' :: s ++ ['\''])
      else chars "'<binary>'") = chars "'<binary>'"
    rw [h]
    rfl

/-- C7 witness: a printable byte slice is quoted, a non-printable one
renders as `'<binary>'`, an integer stays unquoted. -/
theorem value_quoting_witness :
    formatValue (.bytes (chars "abc")) = chars "'abc'"
    ∧ formatValue (.bytes [Char.ofNat 1]) = chars "'<binary>'"
    ∧ formatValue (.uintv .u8 7) = chars "7" := by
  refine ⟨(value_quoting.2.2.1 (chars "abc") (by decide)).trans (by decide),
    value_quoting.2.2.2.1 [Char.ofNat 1] (by decide), ?_⟩
  exact (value_quoting.2.1 .u8 7).trans (by decide)

/-- C8.  A call whose first value is the tag "sql" (with the ≥ 3 values
needed to reach the tag dispatch) but whose positional values do not have
the expected shape — position 2 a duration, position 3 a string, position 4
a value list, position 5 an int64 (each present) — makes decoding fail
deterministically with a panic-equivalent (`none`), never a corrupted
Record.  (A call of exactly 2 values is classified as an error log before
the tag is ever inspected, so it cannot reach this branch.) -/
theorem sql_malformed_call_fails (lvl : Level) (values : List GoValue)
    (hlen : 3 ≤ values.length)
    (htag : values.getD 0 .nilv = .str (chars "sql"))
    (hshape : decodeSqlShape values = none) :
    newRecord lvl values = none := by
  unfold newRecord
  rw [if_neg (by omega), if_neg (by omega), htag, if_neg (by decide),
    if_pos (by decide), hshape]

/-- C8 witness: a "sql" call whose position 2 is a string rather than a
duration fails to decode. -/
theorem sql_malformed_call_fails_witness :
    newRecord Level.debug [.str (chars "sql"), .str (chars "src"), .str (chars "oops")]
      = none :=
  sql_malformed_call_fails Level.debug
    [.str (chars "sql"), .str (chars "src"), .str (chars "oops")]
    (by decide) rfl rfl

/-- C9.  Rendered-SQL and rows-affected are populated together: any call
that does not take the "sql" branch decodes (when it decodes at all) to a
Record with empty SQL and zero rows-affected, while a "sql" call that
decodes fills both fields (and the duration) from the decoded positional
values of the same call. -/
theorem sql_fields_set_together (lvl : Level) (values : List GoValue) (r : Record)
    (h : newRecord lvl values = some r) :
    (¬ (values.getD 0 .nilv = .str (chars "sql") ∧ 3 ≤ values.length) →
      r.SQL = [] ∧ r.RowsAffected = 0)
    ∧ (values.getD 0 .nilv = .str (chars "sql") ∧ 3 ≤ values.length →
        ∃ d tpl bvs ra, decodeSqlShape values = some (d, tpl, bvs, ra)
          ∧ r.SQL = formatSQL tpl bvs ∧ r.RowsAffected = ra ∧ r.Duration = d) := by
  unfold newRecord at h
  by_cases h2 : values.length < 2
  · rw [if_pos h2] at h
    injection h with h
    subst h
    exact ⟨fun _ => ⟨rfl, rfl⟩, fun hc => by omega⟩
  · rw [if_neg h2] at h
    by_cases h3 : values.length = 2
    · rw [if_pos h3] at h
      injection h with h
      subst h
      exact ⟨fun _ => ⟨rfl, rfl⟩, fun hc => by omega⟩
    · rw [if_neg h3] at h
      by_cases hlog : goEqStr (values.getD 0 .nilv) (chars "log") = true
      · rw [if_pos hlog] at h
        injection h with h
        subst h
        refine ⟨fun _ => ⟨rfl, rfl⟩, fun hc => ?_⟩
        rw [hc.1] at hlog
        exact absurd hlog (by decide)
      · rw [if_neg hlog] at h
        by_cases hsql : goEqStr (values.getD 0 .nilv) (chars "sql") = true
        · rw [if_pos hsql] at h
          cases hd : decodeSqlShape values with
          | none =>
            rw [hd] at h
            exact absurd h (by simp)
          | some q =>
            obtain ⟨d, tpl, bvs, ra⟩ := q
            rw [hd] at h
            injection h with h
            subst h
            refine ⟨fun hc => absurd ⟨(goEqStr_eq _ _).mp hsql, by omega⟩ hc,
              fun _ => ⟨d, tpl, bvs, ra, rfl, rfl, rfl, rfl⟩⟩
        · rw [if_neg hsql] at h
          injection h with h
          subst h
          refine ⟨fun _ => ⟨rfl, rfl⟩, fun hc => ?_⟩
          rw [hc.1] at hsql
          exact absurd hsql (by decide)

/-- C9 witness: a "log" call decodes with empty SQL and zero rows-affected;
a well-formed "sql" call fills both from the call. -/
theorem sql_fields_set_together_witness :
    ((newRecord Level.debug [.str (chars "log"), .str (chars "s"), .str (chars "m")]
        = some { Message := chars "m", Source := chars "s", Level := Level.debug,
                 Duration := 0, SQL := [], RowsAffected := 0 })
      ∧ ([] : List Char) = [] ∧ (0 : Int) = 0) := by
  have hrec : newRecord Level.debug
      [.str (chars "log"), .str (chars "s"), .str (chars "m")]
      = some { Message := chars "m", Source := chars "s", Level := Level.debug,
               Duration := 0, SQL := [], RowsAffected := 0 } := by decide
  have h := (sql_fields_set_together Level.debug
      [.str (chars "log"), .str (chars "s"), .str (chars "m")]
      { Message := chars "m", Source := chars "s", Level := Level.debug,
        Duration := 0, SQL := [], RowsAffected := 0 } hrec).1
      (by rintro ⟨htag, -⟩; injection htag with h'; exact absurd h' (by decide))
  exact ⟨hrec, h.1, h.2⟩

/-- C10.  With an empty bound-value list the replacement set is empty and
`formatSQL` returns the template unchanged, whatever the template contains. -/
theorem formatSQL_empty_values_identity (sql : List Char) :
    formatSQL sql [] = sql := by
  unfold formatSQL
  have h : goReplacements (containsSub (chars "$1") sql) [] = [] := rfl
  rw [h]
  exact runReplacer_no_reps sql
